import Mathlib

/-!
Verification of the storage core of the `file-manager` repository: the
`FileDatabase` class (client-side IndexedDB store of `FileEntry` records,
with an operation queue bridging the uninitialized/ready states, bounded
retry on open failure, and a file-association graph stored as an
`associatedFiles` field on container records).

The embedding below translates the source methods into pure Lean
functions.  The IndexedDB object store `files` (keyPath `id`) is modelled
as a list of entries with unique ids; `db.put` / `db.get` / `db.delete` /
`db.getAll` become `idbPut` / `idbGet` / `idbDelete` / `idbGetAll`.
-/

namespace FileManager

/-- Model of the `FileEntry` interface.  `Blob` payloads are opaque to the
store and are modelled as strings; `Date` is modelled as a natural number.
`associatedFiles?: string[]` is an optional field, hence `Option (List String)`. -/
structure FileEntry where
  id : String
  name : String
  type : String
  size : Nat
  compressedSize : Nat
  data : String
  createdAt : Nat
  associatedFiles : Option (List String)
deriving DecidableEq, Repr

/-- The contents of the `files` object store.  IndexedDB keys the store by
`id` (keyPath `id`), which guarantees at most one record per id; that
well-formedness condition is the separate predicate `UniqueIds`. -/
abbrev Store := List FileEntry

/-- Store well-formedness guaranteed by IndexedDB's keyPath: record ids are
pairwise distinct. -/
def UniqueIds (s : Store) : Prop := (s.map (fun f => f.id)).Nodup

instance : DecidablePred UniqueIds := fun s => by
  unfold UniqueIds; infer_instance

/-- Model of `db.get('files', id)`: return the record stored under key `id`. -/
def idbGet (s : Store) (id : String) : Option FileEntry :=
  s.find? (fun f => f.id == id)

/-- Model of `db.put('files', e)`: upsert by key — replace the record stored
under key `e.id` if one exists (a well-formed store holds at most one record
per key), otherwise append `e`. -/
def idbPut : Store → FileEntry → Store
  | [], e => [e]
  | f :: t, e => if f.id == e.id then e :: t else f :: idbPut t e

/-- Model of `db.delete('files', id)`: remove the record stored under key `id`. -/
def idbDelete (s : Store) (id : String) : Store :=
  s.filter (fun f => f.id != id)

/-- Model of `db.getAll('files')`: every record in the store. -/
def idbGetAll (s : Store) : List FileEntry := s

/-- Source (part_014 lines 158-164) `addFile(file)`: `await this.db.put('files', file)`.
The ready-path store effect. -/
def addFile (s : Store) (file : FileEntry) : Store := idbPut s file

/-- Source (part_014 lines 166-172) `getFile(id)`: `return await this.db.get('files', id)`. -/
def getFile (s : Store) (id : String) : Option FileEntry := idbGet s id

/-- Source (part_014 lines 174-180) `getAllFiles()`. -/
def getAllFiles (s : Store) : List FileEntry := idbGetAll s

/-- Body of the `for (const file of files)` loop in `deleteFile` (part_014
lines 188-196): if `file.associatedFiles?.includes(id)`, rewrite the record
with `id` filtered out of its `associatedFiles`; otherwise leave the store
untouched. -/
def cascadeStep (id : String) (acc : Store) (file : FileEntry) : Store :=
  match file.associatedFiles with
  | some assoc =>
      if assoc.contains id then
        addFile acc { file with associatedFiles := some (assoc.filter (fun fid => fid != id)) }
      else acc
  | none => acc

/-- Source (part_014 lines 182-199) `deleteFile(id)`: snapshot all files,
strip `id` from the `associatedFiles` of every record that contains it
(one `addFile` per affected record), then `db.delete('files', id)`. -/
def deleteFile (s : Store) (id : String) : Store :=
  let files := getAllFiles s
  let s1 := files.foldl (cascadeStep id) s
  idbDelete s1 id

/-- Source (part_014 lines 216-232) `associateFiles(htmlFileId, jsonFileId)`:
fetch the container, throw `'HTML file not found'` if absent; fetch the data
file, throw `'JSON file not found'` if absent; then write the container back
with `jsonFileId` appended (unconditionally) to `associatedFiles`. -/
def associateFiles (s : Store) (htmlFileId jsonFileId : String) : Except String Store :=
  match getFile s htmlFileId with
  | none => .error "HTML file not found"
  | some htmlFile =>
    match getFile s jsonFileId with
    | none => .error "JSON file not found"
    | some _ =>
      .ok (addFile s
        { htmlFile with
          associatedFiles := some ((htmlFile.associatedFiles.getD []) ++ [jsonFileId]) })

/-- Source (part_014 lines 234-247) `removeAssociation(htmlFileId, jsonFileId)`:
fetch the container, throw `'HTML file not found'` if absent; write it back
with `jsonFileId` filtered out of `associatedFiles`. -/
def removeAssociation (s : Store) (htmlFileId jsonFileId : String) : Except String Store :=
  match getFile s htmlFileId with
  | none => .error "HTML file not found"
  | some htmlFile =>
    .ok (addFile s
      { htmlFile with
        associatedFiles :=
          some ((htmlFile.associatedFiles.getD []).filter (fun id => id != jsonFileId)) })

/-- The association list of an entry, reading the optional field as the
source does with `file.associatedFiles || []`. -/
def refs (f : FileEntry) : List String := f.associatedFiles.getD []

/-- Condition tested by `deleteFile`'s loop: `file.associatedFiles?.includes(id)`
(`undefined` is falsy, so a missing field never matches). -/
def hasRef (d : String) (f : FileEntry) : Bool := (refs f).contains d

/-- The record `deleteFile` writes back for an affected entry: the entry with
`d` filtered out of its association list.  On an entry that does not
reference `d` this is the identity. -/
def stripRef (d : String) (f : FileEntry) : FileEntry :=
  { f with associatedFiles := f.associatedFiles.map (fun l => l.filter (fun fid => fid != d)) }

/-- The spec's four store mutators: `put` / `remove` / `associate` /
`disassociate`, as named in spec §4.3-§4.4 and mapped to the source methods
`addFile` / `deleteFile` / `associateFiles` / `removeAssociation`. -/
inductive StoreOp where
  | put (e : FileEntry)
  | remove (id : String)
  | associate (c d : String)
  | disassociate (c d : String)
deriving DecidableEq, Repr

/-- Apply one mutator to the store.  A rejected `associate`/`disassociate`
(thrown `Error`) performs no write, so the store is unchanged. -/
def applyOp (s : Store) : StoreOp → Store
  | .put e => addFile s e
  | .remove id => deleteFile s id
  | .associate c d =>
      match associateFiles s c d with
      | .ok s' => s'
      | .error _ => s
  | .disassociate c d =>
      match removeAssociation s c d with
      | .ok s' => s'
      | .error _ => s

/-- Apply a sequence of mutators in order. -/
def applyOps (s : Store) (ops : List StoreOp) : Store := ops.foldl applyOp s

/-- Referential integrity of the association graph: every id in any entry's
`associatedFiles` resolves via `getFile` to a present entry. -/
def NoDangling (s : Store) : Prop :=
  ∀ f ∈ s, ∀ a ∈ refs f, (getFile s a).isSome

instance : DecidablePred NoDangling := fun s => by
  unfold NoDangling; infer_instance

/-! ### Basic lemmas about the IndexedDB primitives -/
theorem getFile_nil (a : String) : getFile [] a = none := rfl

theorem getFile_cons (f : FileEntry) (t : Store) (a : String) :
    getFile (f :: t) a = if f.id = a then some f else getFile t a := by
  by_cases h : f.id = a
  · simp [getFile, idbGet, h]
  · simp [getFile, idbGet, h]

theorem getFile_some_id {s : Store} {a : String} {f : FileEntry}
    (h : getFile s a = some f) : f.id = a := by
  have h0 : s.find? (fun g => g.id == a) = some f := by simpa [getFile, idbGet] using h
  simpa using List.find?_some h0

theorem mem_of_getFile_some {s : Store} {a : String} {f : FileEntry}
    (h : getFile s a = some f) : f ∈ s :=
  List.mem_of_find?_eq_some (by simpa [getFile, idbGet] using h)

theorem getFile_eq_none_iff {s : Store} {a : String} :
    getFile s a = none ↔ ∀ f ∈ s, f.id ≠ a := by
  simp [getFile, idbGet, List.find?_eq_none]

/-- Characterization of `getFile` after `idbPut`: the written entry is found
under its own key, every other key is untouched. -/
theorem getFile_idbPut (s : Store) (e : FileEntry) (a : String) :
    getFile (idbPut s e) a = if a = e.id then some e else getFile s a := by
  induction s with
  | nil =>
    show getFile [e] a = _
    rw [getFile_cons e [] a]
    by_cases h : a = e.id
    · rw [if_pos h.symm, if_pos h]
    · rw [if_neg (fun hh => h hh.symm), if_neg h, getFile_nil]
  | cons f t ih =>
    by_cases hf : f.id = e.id
    · have hput : idbPut (f :: t) e = e :: t := by simp [idbPut, hf]
      rw [hput, getFile_cons e t a]
      by_cases h : a = e.id
      · rw [if_pos h.symm, if_pos h]
      · have h3 : ¬ f.id = a := fun hh => h (hf.symm.trans hh).symm
        rw [if_neg (fun hh => h hh.symm), if_neg h, getFile_cons f t a, if_neg h3]
    · have hput : idbPut (f :: t) e = f :: idbPut t e := by simp [idbPut, hf]
      rw [hput, getFile_cons f (idbPut t e) a]
      by_cases hfa : f.id = a
      · have h : ¬ a = e.id := fun hh => hf (hfa.trans hh)
        rw [if_pos hfa, if_neg h, getFile_cons f t a, if_pos hfa]
      · rw [if_neg hfa, ih]
        by_cases h : a = e.id
        · rw [if_pos h, if_pos h]
        · rw [if_neg h, if_neg h, getFile_cons f t a, if_neg hfa]

theorem mem_idbPut {s : Store} {e f' : FileEntry} (h : f' ∈ idbPut s e) :
    f' = e ∨ f' ∈ s := by
  induction s with
  | nil => simpa [idbPut] using h
  | cons f t ih =>
    by_cases hf : f.id = e.id
    · have hput : idbPut (f :: t) e = e :: t := by simp [idbPut, hf]
      rw [hput] at h
      rcases List.mem_cons.mp h with h' | h'
      · exact Or.inl h'
      · exact Or.inr (List.mem_cons_of_mem _ h')
    · have hput : idbPut (f :: t) e = f :: idbPut t e := by simp [idbPut, hf]
      rw [hput] at h
      rcases List.mem_cons.mp h with h' | h'
      · exact Or.inr (by simp [h'])
      · rcases ih h' with h2 | h2
        · exact Or.inl h2
        · exact Or.inr (List.mem_cons_of_mem _ h2)

theorem ids_idbPut_of_mem {s : Store} {e : FileEntry}
    (h : e.id ∈ s.map (fun f => f.id)) :
    (idbPut s e).map (fun f => f.id) = s.map (fun f => f.id) := by
  induction s with
  | nil => simp at h
  | cons f t ih =>
    by_cases hf : f.id = e.id
    · simp [idbPut, hf]
    · have h' : e.id ∈ t.map (fun f => f.id) := by
        simp only [List.map_cons, List.mem_cons] at h
        rcases h with h | h
        · exact absurd h.symm hf
        · exact h
      simp [idbPut, hf, ih h']

theorem uniqueIds_idbPut {s : Store} (e : FileEntry) (hu : UniqueIds s) :
    UniqueIds (idbPut s e) := by
  induction s with
  | nil => simp [idbPut, UniqueIds]
  | cons f t ih =>
    unfold UniqueIds at hu ⊢
    simp only [List.map_cons, List.nodup_cons] at hu
    by_cases hf : f.id = e.id
    · have hput : idbPut (f :: t) e = e :: t := by simp [idbPut, hf]
      rw [hput]
      simp only [List.map_cons, List.nodup_cons]
      exact ⟨hf ▸ hu.1, hu.2⟩
    · have hput : idbPut (f :: t) e = f :: idbPut t e := by simp [idbPut, hf]
      rw [hput]
      simp only [List.map_cons, List.nodup_cons]
      refine ⟨fun hmem => ?_, ih hu.2⟩
      rcases List.mem_map.mp hmem with ⟨g, hg, hgid⟩
      rcases mem_idbPut hg with h' | h'
      · subst h'
        exact hf hgid.symm
      · exact hu.1 (List.mem_map.mpr ⟨g, h', hgid⟩)

theorem idbDelete_cons (f : FileEntry) (t : Store) (d : String) :
    idbDelete (f :: t) d = if f.id = d then idbDelete t d else f :: idbDelete t d := by
  by_cases h : f.id = d <;> simp [idbDelete, List.filter_cons, h]

theorem getFile_idbDelete (s : Store) (d a : String) :
    getFile (idbDelete s d) a = if a = d then none else getFile s a := by
  induction s with
  | nil =>
    show getFile [] a = _
    by_cases h : a = d
    · rw [if_pos h, getFile_nil]
    · rw [if_neg h]
  | cons f t ih =>
    rw [idbDelete_cons f t d]
    by_cases hf : f.id = d
    · rw [if_pos hf, ih]
      by_cases h : a = d
      · rw [if_pos h, if_pos h]
      · have h3 : ¬ f.id = a := fun hh => h (hh.symm.trans hf)
        rw [if_neg h, if_neg h, getFile_cons f t a, if_neg h3]
    · rw [if_neg hf, getFile_cons f (idbDelete t d) a]
      by_cases hfa : f.id = a
      · have h : ¬ a = d := fun hh => hf (hfa.trans hh)
        rw [if_pos hfa, if_neg h, getFile_cons f t a, if_pos hfa]
      · rw [if_neg hfa, ih]
        by_cases h : a = d
        · rw [if_pos h, if_pos h]
        · rw [if_neg h, if_neg h, getFile_cons f t a, if_neg hfa]

theorem mem_getFile {s : Store} {f : FileEntry} (hu : UniqueIds s) (h : f ∈ s) :
    getFile s f.id = some f := by
  induction s with
  | nil => simp at h
  | cons g t ih =>
    unfold UniqueIds at hu
    simp only [List.map_cons, List.nodup_cons] at hu
    rw [getFile_cons g t f.id]
    rcases List.mem_cons.mp h with h' | h'
    · rw [if_pos (congrArg FileEntry.id h'.symm), h']
    · have hgid : ¬ g.id = f.id := fun hh => hu.1 (hh ▸ List.mem_map.mpr ⟨f, h', rfl⟩)
      rw [if_neg hgid]
      exact ih hu.2 h'

/-! ### Characterization of `deleteFile` -/

theorem stripRef_id (d : String) (f : FileEntry) : (stripRef d f).id = f.id := rfl

theorem cascadeStep_eq (d : String) (acc : Store) (f : FileEntry) :
    cascadeStep d acc f = if hasRef d f then idbPut acc (stripRef d f) else acc := by
  cases f with
  | mk id name type size csize data createdAt assoc =>
    cases assoc with
    | none => simp [cascadeStep, hasRef, refs, List.contains]
    | some l =>
      by_cases h : l.contains d
      · simp [cascadeStep, hasRef, refs, h, addFile, stripRef]
      · have hd : d ∉ l := by simpa using h
        simp [cascadeStep, hasRef, refs, h, hd]

theorem refs_stripRef (d : String) (f : FileEntry) :
    refs (stripRef d f) = (refs f).filter (fun x => x != d) := by
  cases f with
  | mk id name type size csize data createdAt assoc =>
    cases assoc with
    | none => simp [stripRef, refs]
    | some l => simp [stripRef, refs]

theorem stripRef_eq_self {d : String} {f : FileEntry} (h : hasRef d f = false) :
    stripRef d f = f := by
  cases f with
  | mk id name type size csize data createdAt assoc =>
    cases assoc with
    | none => simp [stripRef]
    | some l =>
      simp only [hasRef, refs, Option.getD_some] at h
      have hd : d ∉ l := by simpa using h
      simp only [stripRef, Option.map_some']
      have : l.filter (fun fid => fid != d) = l := by
        rw [List.filter_eq_self]
        intro x hx
        simp
        exact fun hh => hd (hh ▸ hx)
      rw [this]

theorem getFile_foldl_cascade (d : String) :
    ∀ (l : List FileEntry) (t : Store) (a : String),
      (l.map (fun f => f.id)).Nodup →
      getFile (l.foldl (cascadeStep d) t) a =
        match l.find? (fun g => g.id == a && hasRef d g) with
        | some f => some (stripRef d f)
        | none => getFile t a := by
  intro l
  induction l with
  | nil => intro t a _; rfl
  | cons f lt ih =>
    intro t a hnd
    simp only [List.map_cons, List.nodup_cons] at hnd
    rw [List.foldl_cons]
    by_cases hfa : f.id = a
    · have hnone : lt.find? (fun g => g.id == a && hasRef d g) = none := by
        rw [List.find?_eq_none]
        intro g hg
        have hne : ¬ g.id = a := fun hh =>
          hnd.1 (List.mem_map.mpr ⟨g, hg, hh.trans hfa.symm⟩)
        simp [hne]
      by_cases hr : hasRef d f = true
      · rw [ih (cascadeStep d t f) a hnd.2, hnone]
        rw [List.find?_cons_of_pos _ (by simp [hfa, hr])]
        rw [cascadeStep_eq, if_pos hr, getFile_idbPut]
        rw [if_pos (by rw [stripRef_id]; exact hfa.symm)]
      · rw [ih (cascadeStep d t f) a hnd.2, hnone]
        rw [List.find?_cons_of_neg _ (by simp [hr]), hnone]
        rw [cascadeStep_eq, if_neg (by simp [hr])]
    · have hstep : getFile (cascadeStep d t f) a = getFile t a := by
        rw [cascadeStep_eq]
        by_cases hr : hasRef d f = true
        · rw [if_pos hr, getFile_idbPut,
            if_neg (by rw [stripRef_id]; exact fun hh => hfa hh.symm)]
        · rw [if_neg hr]
      rw [ih (cascadeStep d t f) a hnd.2]
      rw [List.find?_cons_of_neg _ (by simp [hfa])]
      cases hfind : lt.find? (fun g => g.id == a && hasRef d g) with
      | some g => rfl
      | none => exact hstep

theorem find?_and_of_unique (q : FileEntry → Bool) {s : Store} {a : String} {f0 : FileEntry}
    (hu : UniqueIds s) (h : getFile s a = some f0) :
    s.find? (fun g => g.id == a && q g) = if q f0 then some f0 else none := by
  induction s with
  | nil => simp [getFile, idbGet] at h
  | cons f t ih =>
    unfold UniqueIds at hu
    simp only [List.map_cons, List.nodup_cons] at hu
    rw [getFile_cons f t a] at h
    by_cases hfa : f.id = a
    · rw [if_pos hfa] at h
      injection h with h
      subst h
      have hnone : t.find? (fun g => g.id == a && q g) = none := by
        rw [List.find?_eq_none]
        intro g hg
        have hne : ¬ g.id = a := fun hh =>
          hu.1 (List.mem_map.mpr ⟨g, hg, hh.trans hfa.symm⟩)
        simp [hne]
      by_cases hq : q f = true
      · rw [List.find?_cons_of_pos _ (by simp [hfa, hq]), if_pos hq]
      · rw [List.find?_cons_of_neg _ (by simp [hq]), hnone, if_neg hq]
    · rw [if_neg hfa] at h
      rw [List.find?_cons_of_neg _ (by simp [hfa])]
      exact ih hu.2 h

/-- The key functional description of `deleteFile`: the deleted id resolves
to nothing afterwards, and every other key holds its old record with `d`
filtered out of its association list (the identity for records that did not
reference `d`). -/
theorem getFile_deleteFile (s : Store) (d a : String) (hu : UniqueIds s) :
    getFile (deleteFile s d) a = if a = d then none else (getFile s a).map (stripRef d) := by
  show getFile (idbDelete (s.foldl (cascadeStep d) s) d) a = _
  rw [getFile_idbDelete]
  by_cases h : a = d
  · rw [if_pos h, if_pos h]
  · rw [if_neg h, if_neg h]
    rw [getFile_foldl_cascade d s s a hu]
    cases hg : getFile s a with
    | none =>
      have hfind : s.find? (fun g => g.id == a && hasRef d g) = none := by
        rw [List.find?_eq_none]
        intro g hgmem
        have hne := (getFile_eq_none_iff.mp hg) g hgmem
        simp [hne]
      rw [hfind]
      rfl
    | some f0 =>
      have hff := find?_and_of_unique (hasRef d) hu hg
      by_cases hr : hasRef d f0 = true
      · rw [hff, if_pos hr]
        rfl
      · rw [hff, if_neg hr]
        simp [stripRef_eq_self (Bool.not_eq_true _ ▸ hr)]

theorem ids_foldl_cascade (d : String) :
    ∀ (l : List FileEntry) (t : Store),
      (∀ f ∈ l, f.id ∈ t.map (fun g => g.id)) →
      (l.foldl (cascadeStep d) t).map (fun g => g.id) = t.map (fun g => g.id) := by
  intro l
  induction l with
  | nil => intro t _; rfl
  | cons f lt ih =>
    intro t hmem
    rw [List.foldl_cons]
    have hids : (cascadeStep d t f).map (fun g => g.id) = t.map (fun g => g.id) := by
      rw [cascadeStep_eq]
      by_cases hr : hasRef d f = true
      · rw [if_pos hr]
        exact ids_idbPut_of_mem (by rw [stripRef_id]; exact hmem f (by simp))
      · rw [if_neg hr]
    have hmem' : ∀ g ∈ lt, g.id ∈ (cascadeStep d t f).map (fun g => g.id) := by
      intro g hg
      rw [hids]
      exact hmem g (List.mem_cons_of_mem _ hg)
    rw [ih (cascadeStep d t f) hmem', hids]

theorem uniqueIds_deleteFile {s : Store} (d : String) (hu : UniqueIds s) :
    UniqueIds (deleteFile s d) := by
  show UniqueIds (idbDelete (s.foldl (cascadeStep d) s) d)
  have hids : (s.foldl (cascadeStep d) s).map (fun g => g.id) = s.map (fun g => g.id) :=
    ids_foldl_cascade d s s (fun f hf => List.mem_map.mpr ⟨f, hf, rfl⟩)
  unfold UniqueIds at hu ⊢
  unfold idbDelete
  refine List.Nodup.sublist ?_ (hids ▸ hu)
  exact List.Sublist.map (fun g : FileEntry => g.id)
    (List.filter_sublist (List.foldl (cascadeStep d) s s))

/-! ### Helper facts -/

theorem hasRef_eq_true_iff {d : String} {f : FileEntry} :
    hasRef d f = true ↔ d ∈ refs f := by
  simp [hasRef, List.contains]

/-- Concrete entries used by the closed witness/counterexample theorems. -/
def entryW (i : String) (assoc : Option (List String)) : FileEntry :=
  ⟨i, i, "text/html", 4, 2, "blob", 0, assoc⟩

/-! ### Claim C7 — upsert round-trip -/

/-- Claim C7: `put(e)` followed by `get(e.id)` returns a value deep-equal to
`e`, for every entry and every store; `put` inserts when `e.id` is absent and
fully replaces the record when present, and touches no other key (there are
no constraint checks beyond the id key, so no hypothesis is needed). -/
theorem claim_C7_upsert_roundtrip (s : Store) (e : FileEntry) (a : String) :
    getFile (addFile s e) a = if a = e.id then some e else getFile s a :=
  getFile_idbPut s e a

/-! ### Claim C2 — delete cascades -/

/-- Claim C2: for a store (well-formed: IndexedDB keys are unique) holding a
container `c` under id `cId` with `associatedFiles = [a, b]` and an entry
under id `a`, after `deleteFile a` the container resolves with
`associatedFiles = [b]` and `a` no longer resolves. -/
theorem claim_C2_delete_cascades (s : Store) (cId a b : String) (c : FileEntry)
    (hu : UniqueIds s) (hc : getFile s cId = some c)
    (hassoc : c.associatedFiles = some [a, b])
    (hab : a ≠ b) (hac : a ≠ cId) (hA : (getFile s a).isSome) :
    getFile (deleteFile s a) cId = some { c with associatedFiles := some [b] } ∧
    getFile (deleteFile s a) a = none := by
  constructor
  · rw [getFile_deleteFile s a cId hu, if_neg (fun hh => hac hh.symm), hc]
    simp only [Option.map_some']
    have hfilter : [a, b].filter (fun fid => fid != a) = [b] := by
      simp [List.filter_cons, Ne.symm hab]
    rw [show stripRef a c = { c with associatedFiles := some [b] } from by
      simp only [stripRef, hassoc, Option.map_some']
      rw [hfilter]]
  · rw [getFile_deleteFile s a a hu, if_pos rfl]

/-- Witness for C2 at a concrete store. -/
theorem claim_C2_delete_cascades_witness :
    getFile (deleteFile [entryW "c" (some ["a", "b"]), entryW "a" none, entryW "b" none] "a") "c"
      = some { entryW "c" (some ["a", "b"]) with associatedFiles := some ["b"] } ∧
    getFile (deleteFile [entryW "c" (some ["a", "b"]), entryW "a" none, entryW "b" none] "a") "a"
      = none :=
  claim_C2_delete_cascades
    [entryW "c" (some ["a", "b"]), entryW "a" none, entryW "b" none]
    "c" "a" "b" (entryW "c" (some ["a", "b"]))
    (by decide) (by decide) rfl (by decide) (by decide) (by decide)

/-! ### Claim C10 — delete frame effect -/

/-- Claim C10: `deleteFile d` rewrites only entries whose association list
contains `d`; an entry whose id differs from `d` and which does not reference
`d` is still retrievable afterwards, all fields identical. -/
theorem claim_C10_delete_frame (s : Store) (d : String) (f : FileEntry)
    (hu : UniqueIds s) (hf : f ∈ s) (hid : f.id ≠ d) (hnoref : d ∉ refs f) :
    getFile (deleteFile s d) f.id = some f := by
  rw [getFile_deleteFile s d f.id hu, if_neg hid, mem_getFile hu hf]
  simp only [Option.map_some']
  rw [stripRef_eq_self (by
    rw [Bool.eq_false_iff]
    intro hh
    exact hnoref (hasRef_eq_true_iff.mp hh))]

/-- Witness for C10: a bystander entry survives a cascade delete unchanged. -/
theorem claim_C10_delete_frame_witness :
    getFile (deleteFile
        [entryW "c" (some ["x"]), entryW "g" (some ["c"]), entryW "x" none] "x")
      (entryW "g" (some ["c"])).id = some (entryW "g" (some ["c"])) :=
  claim_C10_delete_frame
    [entryW "c" (some ["x"]), entryW "g" (some ["c"]), entryW "x" none]
    "x" (entryW "g" (some ["c"]))
    (by decide) (by decide) (by decide) (by decide)

/-! ### Claim C8 — associate rejects missing ids and leaves the store unchanged -/

/-- Claim C8: `associateFiles` fetches both the container and the data entry
before writing; if either lookup comes back absent it throws (an `Error`
result) and the store is unchanged. -/
theorem claim_C8_associate_notfound (s : Store) (c d : String)
    (h : getFile s c = none ∨ getFile s d = none) :
    (∃ msg, associateFiles s c d = .error msg) ∧ applyOp s (.associate c d) = s := by
  rcases h with h | h
  · exact ⟨⟨"HTML file not found", by simp [associateFiles, h]⟩,
      by simp [applyOp, associateFiles, h]⟩
  · cases hc : getFile s c with
    | none =>
      exact ⟨⟨"HTML file not found", by simp [associateFiles, hc]⟩,
        by simp [applyOp, associateFiles, hc]⟩
    | some htmlFile =>
      exact ⟨⟨"JSON file not found", by simp [associateFiles, hc, h]⟩,
        by simp [applyOp, associateFiles, hc, h]⟩

/-- Witness for C8: associating against a store missing the data id. -/
theorem claim_C8_associate_notfound_witness :
    (∃ msg, associateFiles [entryW "h1" none] "h1" "j1" = .error msg) ∧
    applyOp [entryW "h1" none] (.associate "h1" "j1") = [entryW "h1" none] :=
  claim_C8_associate_notfound [entryW "h1" none] "h1" "j1" (Or.inr (by decide))

/-! ### Claim C3 — association idempotence (fails on the code) -/

/-- Counterexample to claim C3: the source appends `jsonFileId`
unconditionally (`[...(htmlFile.associatedFiles || []), jsonFileId]`, no
membership test), so associating twice leaves the container's list holding
the data id twice — not "exactly once" as claimed. -/
theorem claim_C3_cex :
    ((getFile (applyOps [entryW "c" (some []), entryW "a" none]
        [StoreOp.associate "c" "a", StoreOp.associate "c" "a"]) "c").map
      (fun f => (refs f).count "a")) = some 2 ∧
    ¬ ((getFile (applyOps [entryW "c" (some []), entryW "a" none]
        [StoreOp.associate "c" "a", StoreOp.associate "c" "a"]) "c").map
      (fun f => (refs f).count "a")) = some 1 := by
  decide

/-- Claim C3 as amended: both `associateFiles` calls succeed, but each one
appends the data id, so after two calls the container's association list is
the original list with `[a, a]` appended and the count of `a` has grown by
two (in particular, two, not one, when `a` was absent before). -/
theorem claim_C3_associate_twice (s : Store) (c a : String) (html : FileEntry)
    (hc : getFile s c = some html) (ha : (getFile s a).isSome) (hne : c ≠ a) :
    ∃ s1 s2, associateFiles s c a = .ok s1 ∧ associateFiles s1 c a = .ok s2 ∧
      ∃ f, getFile s2 c = some f ∧ refs f = refs html ++ [a, a] ∧
        (refs f).count a = (refs html).count a + 2 := by
  have hid : html.id = c := getFile_some_id hc
  rcases Option.isSome_iff_exists.mp ha with ⟨j, hj⟩
  set e1 : FileEntry :=
    { html with associatedFiles := some ((html.associatedFiles.getD []) ++ [a]) } with he1
  have hstep1 : associateFiles s c a = .ok (addFile s e1) := by
    simp [associateFiles, hc, hj, he1]
  have hget1c : getFile (addFile s e1) c = some e1 := by
    rw [show addFile s e1 = idbPut s e1 from rfl, getFile_idbPut,
      if_pos (show c = e1.id from hid.symm)]
  have hget1a : getFile (addFile s e1) a = some j := by
    rw [show addFile s e1 = idbPut s e1 from rfl, getFile_idbPut,
      if_neg (show ¬ a = e1.id from fun hh => hne (hid ▸ hh).symm), hj]
  set e2 : FileEntry :=
    { e1 with associatedFiles := some ((e1.associatedFiles.getD []) ++ [a]) } with he2
  have hstep2 : associateFiles (addFile s e1) c a = .ok (addFile (addFile s e1) e2) := by
    simp [associateFiles, hget1c, hget1a, he2]
  have hget2c : getFile (addFile (addFile s e1) e2) c = some e2 := by
    rw [show addFile (addFile s e1) e2 = idbPut (addFile s e1) e2 from rfl, getFile_idbPut,
      if_pos (show c = e2.id from hid.symm)]
  refine ⟨addFile s e1, addFile (addFile s e1) e2, hstep1, hstep2, e2, hget2c, ?_, ?_⟩
  · show (e2.associatedFiles.getD []) = (html.associatedFiles.getD []) ++ [a, a]
    rw [he2, he1]
    simp [List.append_assoc]
  · show ((e2.associatedFiles.getD []).count a) = ((html.associatedFiles.getD []).count a) + 2
    rw [he2, he1]
    simp [List.count_append, List.count_cons]

/-- Witness for the amended C3. -/
theorem claim_C3_associate_twice_witness :
    ∃ s1 s2,
      associateFiles [entryW "c" (some []), entryW "a" none] "c" "a" = .ok s1 ∧
      associateFiles s1 "c" "a" = .ok s2 ∧
      ∃ f, getFile s2 "c" = some f ∧
        refs f = refs (entryW "c" (some [])) ++ ["a", "a"] ∧
        (refs f).count "a" = (refs (entryW "c" (some []))).count "a" + 2 :=
  claim_C3_associate_twice [entryW "c" (some []), entryW "a" none] "c" "a"
    (entryW "c" (some [])) (by decide) (by decide) (by decide)

/-! ### Claim C1 — no dangling references (fails for unrestricted `put`) -/

/-- Counterexample to claim C1 as stated: `addFile` performs no constraint
check (spec §4.3: "No constraint checks beyond `id` presence"), so a single
`put` of an entry that already carries a dangling id reaches a store that
violates the invariant. -/
theorem claim_C1_cex :
    ¬ NoDangling (applyOps [] [StoreOp.put (entryW "x" (some ["y"]))]) := by
  decide

/-- Safety condition on a single operation against a given store: a `put`
may only introduce ids that resolve at the time of the write (the entry's
own id counts, since the write makes it resolvable); the other three
operations are unrestricted. -/
def putSafe (s : Store) : StoreOp → Bool
  | .put e => (refs e).all (fun a => a == e.id || (getFile s a).isSome)
  | _ => true

/-- Safety of a whole operation sequence, each operation judged against the
store state it actually executes in. -/
def safeOps : Store → List StoreOp → Bool
  | _, [] => true
  | s, op :: rest => putSafe s op && safeOps (applyOp s op) rest

theorem noDangling_addFile {s : Store} {e : FileEntry} (hs : NoDangling s)
    (hcond : ∀ a ∈ refs e, a = e.id ∨ (getFile s a).isSome) :
    NoDangling (addFile s e) := by
  intro f' hf' a ha
  rw [show addFile s e = idbPut s e from rfl] at hf' ⊢
  rw [getFile_idbPut]
  by_cases hae : a = e.id
  · rw [if_pos hae]
    simp
  · rw [if_neg hae]
    rcases mem_idbPut hf' with h' | h'
    · subst h'
      rcases hcond a ha with h2 | h2
      · exact absurd h2 hae
      · exact h2
    · exact hs f' h' a ha

theorem noDangling_deleteFile {s : Store} (d : String) (hu : UniqueIds s)
    (hs : NoDangling s) : NoDangling (deleteFile s d) := by
  intro f' hf' a ha
  have hmem : f' ∈ (s.foldl (cascadeStep d) s) ∧ (f'.id != d) = true :=
    List.mem_filter.mp hf'
  have hid : f'.id ≠ d := by simpa using hmem.2
  have hu1 : UniqueIds (s.foldl (cascadeStep d) s) := by
    unfold UniqueIds
    rw [ids_foldl_cascade d s s (fun f hf => List.mem_map.mpr ⟨f, hf, rfl⟩)]
    exact hu
  have hget : getFile (s.foldl (cascadeStep d) s) f'.id = some f' := mem_getFile hu1 hmem.1
  rw [getFile_foldl_cascade d s s f'.id hu] at hget
  have key : a ≠ d ∧ (getFile s a).isSome := by
    cases hfind : s.find? (fun g => g.id == f'.id && hasRef d g) with
    | some g =>
      rw [hfind] at hget
      have hf'g : stripRef d g = f' := by simpa using hget
      have hgmem : g ∈ s := List.mem_of_find?_eq_some hfind
      have hgref : hasRef d g = true := by
        have hp := List.find?_some hfind
        simp only [Bool.and_eq_true] at hp
        exact hp.2
      have hrefs : refs f' = (refs g).filter (fun x => x != d) := by
        rw [← hf'g, refs_stripRef]
      rw [hrefs] at ha
      have hsplit := List.mem_filter.mp ha
      have had : a ≠ d := by simpa using hsplit.2
      exact ⟨had, hs g hgmem a hsplit.1⟩
    | none =>
      rw [hfind] at hget
      have hget' : getFile s f'.id = some f' := by simpa using hget
      have hf's : f' ∈ s := mem_of_getFile_some hget'
      have hnr : ¬ (f'.id == f'.id && hasRef d f') = true :=
        List.find?_eq_none.mp hfind f' hf's
      have hnr' : hasRef d f' = false := by
        simpa using hnr
      have had : a ≠ d := by
        intro hh
        rw [Bool.eq_false_iff] at hnr'
        exact hnr' (hasRef_eq_true_iff.mpr (hh ▸ ha))
      exact ⟨had, hs f' hf's a ha⟩
  rw [getFile_deleteFile s d a hu, if_neg key.1]
  rcases Option.isSome_iff_exists.mp key.2 with ⟨v, hv⟩
  rw [hv]
  simp

theorem associateFiles_ok {s : Store} {c d : String} {s' : Store}
    (h : associateFiles s c d = .ok s') :
    ∃ html j, getFile s c = some html ∧ getFile s d = some j ∧
      s' = addFile s
        { html with associatedFiles := some ((html.associatedFiles.getD []) ++ [d]) } := by
  unfold associateFiles at h
  cases hc : getFile s c with
  | none =>
    rw [hc] at h
    simp at h
  | some html =>
    rw [hc] at h
    cases hd : getFile s d with
    | none =>
      rw [hd] at h
      simp at h
    | some j =>
      rw [hd] at h
      simp only [Except.ok.injEq] at h
      exact ⟨html, j, rfl, rfl, h.symm⟩

theorem removeAssociation_ok {s : Store} {c d : String} {s' : Store}
    (h : removeAssociation s c d = .ok s') :
    ∃ html, getFile s c = some html ∧
      s' = addFile s { html with
        associatedFiles := some ((html.associatedFiles.getD []).filter (fun id => id != d)) } := by
  unfold removeAssociation at h
  cases hc : getFile s c with
  | none =>
    rw [hc] at h
    simp at h
  | some html =>
    rw [hc] at h
    simp only [Except.ok.injEq] at h
    exact ⟨html, rfl, h.symm⟩

theorem uniqueIds_applyOp (op : StoreOp) {s : Store} (hu : UniqueIds s) :
    UniqueIds (applyOp s op) := by
  cases op with
  | put e => exact uniqueIds_idbPut e hu
  | remove d => exact uniqueIds_deleteFile d hu
  | associate c d =>
    show UniqueIds (match associateFiles s c d with | .ok s' => s' | .error _ => s)
    cases hr : associateFiles s c d with
    | error msg => exact hu
    | ok s' =>
      rcases associateFiles_ok hr with ⟨html, j, hc, hd, hs'⟩
      rw [hs']
      exact uniqueIds_idbPut _ hu
  | disassociate c d =>
    show UniqueIds (match removeAssociation s c d with | .ok s' => s' | .error _ => s)
    cases hr : removeAssociation s c d with
    | error msg => exact hu
    | ok s' =>
      rcases removeAssociation_ok hr with ⟨html, hc, hs'⟩
      rw [hs']
      exact uniqueIds_idbPut _ hu

theorem noDangling_applyOp (op : StoreOp) {s : Store} (hu : UniqueIds s)
    (hs : NoDangling s) (hsafe : putSafe s op = true) :
    NoDangling (applyOp s op) := by
  cases op with
  | put e =>
    refine noDangling_addFile hs ?_
    intro a ha
    have := (List.all_eq_true.mp hsafe) a ha
    rcases Bool.or_eq_true_iff.mp this with h | h
    · exact Or.inl (by simpa using h)
    · exact Or.inr h
  | remove d => exact noDangling_deleteFile d hu hs
  | associate c d =>
    show NoDangling (match associateFiles s c d with | .ok s' => s' | .error _ => s)
    cases hr : associateFiles s c d with
    | error msg => exact hs
    | ok s' =>
      rcases associateFiles_ok hr with ⟨html, j, hc, hd, hs'⟩
      rw [hs']
      refine noDangling_addFile hs ?_
      intro a ha
      simp only [refs, Option.getD_some, List.mem_append, List.mem_singleton] at ha
      rcases ha with ha | ha
      · exact Or.inr (hs html (mem_of_getFile_some hc) a ha)
      · subst ha
        exact Or.inr (by rw [hd]; rfl)
  | disassociate c d =>
    show NoDangling (match removeAssociation s c d with | .ok s' => s' | .error _ => s)
    cases hr : removeAssociation s c d with
    | error msg => exact hs
    | ok s' =>
      rcases removeAssociation_ok hr with ⟨html, hc, hs'⟩
      rw [hs']
      refine noDangling_addFile hs ?_
      intro a ha
      simp only [refs, Option.getD_some] at ha
      have := (List.mem_filter.mp ha).1
      exact Or.inr (hs html (mem_of_getFile_some hc) a this)

theorem safeOps_noDangling : ∀ (ops : List StoreOp) (s : Store),
    UniqueIds s → NoDangling s → safeOps s ops = true →
    UniqueIds (applyOps s ops) ∧ NoDangling (applyOps s ops) := by
  intro ops
  induction ops with
  | nil =>
    intro s hu hs _
    exact ⟨hu, hs⟩
  | cons op rest ih =>
    intro s hu hs hsafe
    simp only [safeOps, Bool.and_eq_true] at hsafe
    show UniqueIds (applyOps (applyOp s op) rest) ∧ NoDangling (applyOps (applyOp s op) rest)
    exact ih (applyOp s op) (uniqueIds_applyOp op hu)
      (noDangling_applyOp op hu hs hsafe.1) hsafe.2

/-- Claim C1 as amended: starting from the empty store, after any sequence of
`put`/`remove`/`associate`/`disassociate` calls in which every `put` writes
an entry whose listed ids resolve at the time of the write (`safeOps` — the
counterexample shows the restriction on `put` is necessary, since `put`
itself checks nothing), every id in any entry's `associatedFiles` resolves
via `getFile` to a present entry. -/
theorem claim_C1_no_dangling (ops : List StoreOp) (hsafe : safeOps [] ops = true) :
    NoDangling (applyOps [] ops) :=
  (safeOps_noDangling ops [] (by simp [UniqueIds]) (by intro f hf; simp at hf) hsafe).2

/-- Witness for the amended C1: a put/put/associate/remove history. -/
theorem claim_C1_no_dangling_witness :
    NoDangling (applyOps []
      [StoreOp.put (entryW "h1" (some [])), StoreOp.put (entryW "j1" none),
       StoreOp.associate "h1" "j1", StoreOp.remove "j1"]) :=
  claim_C1_no_dangling
    [StoreOp.put (entryW "h1" (some [])), StoreOp.put (entryW "j1" none),
     StoreOp.associate "h1" "j1", StoreOp.remove "j1"]
    (by decide)

/-!
### Model of the operation queue and bounded-retry open sequence

The remaining claims concern `queueOperation` / `executeQueuedOperations` /
`init` / `initWithRetry` (part_014 lines 33-156).  The JS runs on a single
event loop; the scenarios the claims describe all start from a fresh
`FileDatabase` (`initialized = false`, `isInitializing = false`, empty
`operationQueue`) with a batch of calls issued with no awaits in between.
In that situation every call reaches `queueOperation` before the in-flight
`openDB` resolves (each public method's `await this.waitForUpgrade()`
returns immediately because `upgradeLock` is still false when the batch is
issued, and the continuations run as microtasks in submission order), so
the whole run factors into (1) a synchronous submission phase, (2) one
`initWithRetry` open sequence, and (3) on success the FIFO drain, on
failure the rejection path of `init` — which is exactly what `runScenario`
below composes.
-/

/-- Retry ceiling: `private maxRetries = 3` (part_014 line 29). -/
def maxRetries : Nat := 3

/-- Source (part_014 lines 79-130) `initWithRetry()`, abstracted over the
outcome of each `openDB` call (`openOk k` says whether the `k`-th call
succeeds).  The JS keeps `retryCount` on the instance; here
`remaining + 1 = maxRetries - retryCount` (initially `retryCount = 0`).  On
a failed open the source does `retryCount++` and recurses while
`retryCount < maxRetries`, i.e. while `remaining ≠ 0`; otherwise it
rethrows.  Returns how many `openDB` calls were made and whether the last
one succeeded. -/
def initWithRetryGo (openOk : Nat → Bool) : Nat → Nat → Nat × Bool
  | attempt, remaining + 1 =>
    if openOk attempt then (1, true)
    else if remaining = 0 then (1, false)
    else
      let r := initWithRetryGo openOk (attempt + 1) remaining
      (r.1 + 1, r.2)
  | _, 0 => (0, false)

/-- One full `initWithRetry()` chain from a fresh instance (`retryCount = 0`). -/
def initWithRetry (openOk : Nat → Bool) : Nat × Bool :=
  initWithRetryGo openOk 0 maxRetries

/-- Operations submitted through the repository API; the queueing claims
exercise `addFile` and `getFile`. -/
inductive DBOp where
  | add (e : FileEntry)
  | get (id : String)
deriving DecidableEq, Repr

/-- The value an operation's promise resolves with (`addFile` resolves with
`undefined`, `getFile` with the looked-up record or `undefined`). -/
inductive OpRet where
  | done
  | found (e : Option FileEntry)
deriving DecidableEq, Repr

/-- Ready-path effect of one operation: the closures passed to
`queueOperation` by `addFile` (line 160) and `getFile` (line 168), run
against the open store. -/
def runDBOp (s : Store) : DBOp → Store × OpRet
  | .add e => (addFile s e, .done)
  | .get i => (s, .found (getFile s i))

/-- The pending `FileDatabase` state during the submission phase: the
`operationQueue` (each entry tagged with its arrival index), the
`isInitializing` flag, the arrival index of the submission whose `reject`
was attached to the `init()` promise (`this.init().catch(reject)`,
line 60), and how many `init()` chains were started. -/
structure PendingDB where
  queue : List (Nat × DBOp)
  isInitializing : Bool
  trigger : Option Nat
  initCalls : Nat
deriving DecidableEq, Repr

/-- Source (part_014 lines 47-63), not-ready branch of `queueOperation`,
applied to each submission in arrival order (`i` is the next arrival
index): push `{operation, resolve, reject}` onto the queue and, only when
`isInitializing` is still false, call `init()` — which synchronously sets
`isInitializing = true` (line 139) — and attach this caller's `reject` to
its promise. -/
def submitAux : PendingDB → Nat → List DBOp → PendingDB
  | st, _, [] => st
  | st, i, op :: rest =>
      submitAux
        { queue := st.queue ++ [(i, op)]
          isInitializing := true
          trigger := if st.isInitializing then st.trigger else some i
          initCalls := if st.isInitializing then st.initCalls else st.initCalls + 1 }
        (i + 1) rest

/-- All submissions of a batch against a fresh `FileDatabase`: every call
takes the queueing branch (the store is not yet open), and only the first
triggers `init()`. -/
def submitOps (ops : List DBOp) : PendingDB :=
  submitAux ⟨[], false, none, 0⟩ 0 ops

/-- Source (part_014 lines 33-45) `executeQueuedOperations`: shift the
queue in FIFO order, await each operation before starting the next
(threading the store through), and resolve each promise with its result. -/
def execQueuedOps : Store → List (Nat × DBOp) → Store × List (Nat × OpRet)
  | s, [] => (s, [])
  | s, (i, op) :: rest =>
      let r := runDBOp s op
      let rest' := execQueuedOps r.1 rest
      (rest'.1, (i, r.2) :: rest'.2)

/-- Final disposition of a submitted call's promise. -/
inductive Outcome where
  | pending
  | resolved (r : OpRet)
  | rejected
deriving DecidableEq, Repr

/-- Observables of a whole run: each submission's promise outcome, the
final store, the order in which queued operations executed, the number of
`openDB` calls, the number of `init()` chains started, and what is left in
`operationQueue`. -/
structure ScenarioResult where
  outcomes : Nat → Outcome
  finalStore : Store
  execLog : List Nat
  openAttempts : Nat
  initCalls : Nat
  remainingQueue : List (Nat × DBOp)

/-- Composite model of the scenario the queueing claims describe: `ops`
submitted with no awaits in between against a fresh store whose contents
are `s0`, then the single triggered `init()` runs `initWithRetry`.  On
success (part_014 lines 142-144) `executeQueuedOperations` drains the queue
FIFO and every queued promise resolves with its operation's result; on
failure (lines 145-152) `init()` rejects, which settles exactly the one
submission that attached `.catch(reject)` — the queue is not drained, so
the other submissions' promises stay pending and their entries stay
buffered. -/
def runScenario (ops : List DBOp) (openOk : Nat → Bool) (s0 : Store) : ScenarioResult :=
  let st := submitOps ops
  if st.initCalls = 0 then
    ⟨fun _ => .pending, s0, [], 0, 0, st.queue⟩
  else
    let r := initWithRetry openOk
    if r.2 then
      let ex := execQueuedOps s0 st.queue
      ⟨fun i => match ex.2.find? (fun p => p.1 == i) with
         | some p => .resolved p.2
         | none => .pending,
       ex.1, ex.2.map (fun p => p.1), r.1, st.initCalls, []⟩
    else
      ⟨fun i => if st.trigger = some i then .rejected else .pending,
       s0, [], r.1, st.initCalls, st.queue⟩

/-! ### Lemmas about the retry loop and the queue -/

theorem initWithRetryGo_fst_le (openOk : Nat → Bool) :
    ∀ (remaining attempt : Nat), (initWithRetryGo openOk attempt remaining).1 ≤ remaining := by
  intro remaining
  induction remaining with
  | zero =>
    intro attempt
    simp [initWithRetryGo]
  | succ n ih =>
    intro attempt
    simp only [initWithRetryGo]
    by_cases h : openOk attempt = true
    · simp [h]
    · simp only [h, if_false, Bool.false_eq_true]
      by_cases hn : n = 0
      · simp [hn]
      · simp only [hn, if_false]
        exact Nat.succ_le_succ (ih (attempt + 1))

theorem initWithRetryGo_allFail {openOk : Nat → Bool} (h : ∀ i, openOk i = false) :
    ∀ remaining attempt, 0 < remaining →
      initWithRetryGo openOk attempt remaining = (remaining, false) := by
  intro remaining
  induction remaining with
  | zero =>
    intro attempt h0
    exact absurd h0 (by simp)
  | succ n ih =>
    intro attempt _
    simp only [initWithRetryGo, h]
    by_cases hn : n = 0
    · subst hn
      simp
    · simp only [hn, if_false]
      rw [ih (attempt + 1) (Nat.pos_of_ne_zero hn)]
      simp

theorem initWithRetry_allFail {openOk : Nat → Bool} (h : ∀ i, openOk i = false) :
    initWithRetry openOk = (maxRetries, false) :=
  initWithRetryGo_allFail h maxRetries 0 (by decide)

theorem initWithRetry_firstOk {openOk : Nat → Bool} (h : openOk 0 = true) :
    initWithRetry openOk = (1, true) := by
  show initWithRetryGo openOk 0 maxRetries = (1, true)
  have : maxRetries = 2 + 1 := rfl
  rw [this]
  simp [initWithRetryGo, h]

theorem submitAux_of_isInit : ∀ (ops : List DBOp) (q : List (Nat × DBOp))
    (tr : Option Nat) (ic i : Nat),
    submitAux ⟨q, true, tr, ic⟩ i ops = ⟨q ++ ops.enumFrom i, true, tr, ic⟩ := by
  intro ops
  induction ops with
  | nil =>
    intro q tr ic i
    simp [submitAux, List.enumFrom]
  | cons op rest ih =>
    intro q tr ic i
    simp only [submitAux, if_pos rfl, List.enumFrom_cons]
    rw [ih]
    simp

theorem submitOps_cons (op : DBOp) (rest : List DBOp) :
    submitOps (op :: rest) = ⟨(op :: rest).enumFrom 0, true, some 0, 1⟩ := by
  show submitAux ⟨[] ++ [(0, op)], true, some 0, 1⟩ 1 rest = _
  rw [submitAux_of_isInit]
  simp [List.enumFrom_cons]

theorem execQueuedOps_adds : ∀ (es : List FileEntry) (i : Nat) (s : Store),
    execQueuedOps s ((es.map DBOp.add).enumFrom i) =
      (es.foldl addFile s, (List.range' i es.length).map (fun k => (k, OpRet.done))) := by
  intro es
  induction es with
  | nil =>
    intro i s
    simp [execQueuedOps, List.enumFrom]
  | cons e t ih =>
    intro i s
    simp only [List.map_cons, List.enumFrom_cons, execQueuedOps, runDBOp]
    rw [ih (i + 1) (addFile s e)]
    simp [List.range'_succ]

theorem find?_range_done : ∀ (n a i : Nat), a ≤ i → i < a + n →
    ((List.range' a n).map (fun k => (k, OpRet.done))).find? (fun p => p.1 == i)
      = some (i, OpRet.done) := by
  intro n
  induction n with
  | zero =>
    intro a i h1 h2
    omega
  | succ m ih =>
    intro a i h1 h2
    rw [List.range'_succ]
    by_cases h : a = i
    · subst h
      simp
    · have h1' : a + 1 ≤ i := by omega
      have h2' : i < (a + 1) + m := by omega
      rw [List.map_cons, List.find?_cons_of_neg _ (by simp [h])]
      exact ih (a + 1) i h1' h2'

theorem getFile_foldl_addFile_not_mem : ∀ (t : List FileEntry) (s : Store) (a : String),
    (∀ e ∈ t, e.id ≠ a) → getFile (t.foldl addFile s) a = getFile s a := by
  intro t
  induction t with
  | nil =>
    intro s a _
    rfl
  | cons g t' ih =>
    intro s a hne
    rw [List.foldl_cons, ih (addFile s g) a (fun e he => hne e (List.mem_cons_of_mem _ he))]
    rw [show addFile s g = idbPut s g from rfl, getFile_idbPut,
      if_neg (fun hh => hne g (by simp) hh.symm)]

theorem foldl_addFile_present : ∀ (es : List FileEntry) (s0 : Store),
    (es.map (fun e => e.id)).Nodup → ∀ e ∈ es, getFile (es.foldl addFile s0) e.id = some e := by
  intro es
  induction es with
  | nil =>
    intro s0 _ e he
    simp at he
  | cons f t ih =>
    intro s0 hnd e he
    simp only [List.map_cons, List.nodup_cons] at hnd
    rw [List.foldl_cons]
    rcases List.mem_cons.mp he with h' | h'
    · subst h'
      have hni : ∀ g ∈ t, g.id ≠ e.id := by
        intro g hg hh
        exact hnd.1 (List.mem_map.mpr ⟨g, hg, hh⟩)
      rw [getFile_foldl_addFile_not_mem t (addFile s0 e) e.id hni]
      rw [show addFile s0 e = idbPut s0 e from rfl, getFile_idbPut, if_pos rfl]
    · exact ih (addFile s0 f) hnd.2 e h'

/-! ### Claim C5 — queueing correctness -/

/-- Claim C5: a batch of `put` submissions against a fresh store, with no
awaits in between, all get buffered; once `initWithRetry` succeeds the queue
drains strictly in arrival order (the execution log is `0, 1, …, n-1` and
the store threads each write into the next, i.e. each operation completes
before the next starts), every submission's promise resolves, and — when the
ids are distinct — every submitted entry is present afterwards. -/
theorem claim_C5_queueing (es : List FileEntry) (openOk : Nat → Bool) (s0 : Store)
    (hne : es ≠ []) (hok : (initWithRetry openOk).2 = true) :
    (runScenario (es.map DBOp.add) openOk s0).execLog = List.range es.length ∧
    (runScenario (es.map DBOp.add) openOk s0).finalStore = es.foldl addFile s0 ∧
    (∀ i, i < es.length →
      (runScenario (es.map DBOp.add) openOk s0).outcomes i = .resolved .done) ∧
    ((es.map (fun e => e.id)).Nodup →
      ∀ e ∈ es,
        getFile ((runScenario (es.map DBOp.add) openOk s0).finalStore) e.id = some e) := by
  obtain ⟨e0, t0, rfl⟩ := List.exists_cons_of_ne_nil hne
  have hexec := execQueuedOps_adds (e0 :: t0) 0 s0
  have hrun : runScenario ((e0 :: t0).map DBOp.add) openOk s0 =
      ⟨fun i =>
         match (execQueuedOps s0 (((e0 :: t0).map DBOp.add).enumFrom 0)).2.find?
             (fun p => p.1 == i) with
         | some p => .resolved p.2
         | none => .pending,
       (execQueuedOps s0 (((e0 :: t0).map DBOp.add).enumFrom 0)).1,
       (execQueuedOps s0 (((e0 :: t0).map DBOp.add).enumFrom 0)).2.map (fun p => p.1),
       (initWithRetry openOk).1, 1, []⟩ := by
    rw [show (e0 :: t0).map DBOp.add = DBOp.add e0 :: t0.map DBOp.add from rfl]
    simp [runScenario, submitOps_cons, hok]
  refine ⟨?_, ?_, ?_, ?_⟩
  · rw [hrun]
    show (execQueuedOps s0 (((e0 :: t0).map DBOp.add).enumFrom 0)).2.map (fun p => p.1)
      = List.range (e0 :: t0).length
    rw [hexec]
    rw [List.map_map, show ((fun p : Nat × OpRet => p.1) ∘ fun k : Nat => (k, OpRet.done))
      = fun k => k from funext fun k => rfl]
    rw [List.range_eq_range']
    exact List.map_id' _
  · rw [hrun]
    show (execQueuedOps s0 (((e0 :: t0).map DBOp.add).enumFrom 0)).1 = _
    rw [hexec]
  · intro i hi
    rw [hrun]
    show (match (execQueuedOps s0 (((e0 :: t0).map DBOp.add).enumFrom 0)).2.find?
        (fun p => p.1 == i) with
      | some p => Outcome.resolved p.2
      | none => Outcome.pending) = Outcome.resolved OpRet.done
    rw [hexec]
    change (match (List.map (fun k => (k, OpRet.done))
        (List.range' 0 (e0 :: t0).length)).find? (fun p => p.1 == i) with
      | some p => Outcome.resolved p.2
      | none => Outcome.pending) = Outcome.resolved OpRet.done
    rw [find?_range_done (e0 :: t0).length 0 i (Nat.zero_le i) (by omega)]
  · intro hnd e he
    rw [hrun]
    show getFile (execQueuedOps s0 (((e0 :: t0).map DBOp.add).enumFrom 0)).1 e.id = some e
    rw [hexec]
    exact foldl_addFile_present (e0 :: t0) s0 hnd e he

/-- Witness for C5: three puts against a fresh store. -/
theorem claim_C5_queueing_witness :
    (runScenario ([entryW "qa" none, entryW "qb" none, entryW "qc" none].map DBOp.add)
        (fun _ => true) []).execLog
      = List.range [entryW "qa" none, entryW "qb" none, entryW "qc" none].length ∧
    (runScenario ([entryW "qa" none, entryW "qb" none, entryW "qc" none].map DBOp.add)
        (fun _ => true) []).finalStore
      = [entryW "qa" none, entryW "qb" none, entryW "qc" none].foldl addFile [] ∧
    (∀ i, i < [entryW "qa" none, entryW "qb" none, entryW "qc" none].length →
      (runScenario ([entryW "qa" none, entryW "qb" none, entryW "qc" none].map DBOp.add)
        (fun _ => true) []).outcomes i = .resolved .done) ∧
    (([entryW "qa" none, entryW "qb" none, entryW "qc" none].map (fun e => e.id)).Nodup →
      ∀ e ∈ [entryW "qa" none, entryW "qb" none, entryW "qc" none],
        getFile ((runScenario ([entryW "qa" none, entryW "qb" none, entryW "qc" none].map
          DBOp.add) (fun _ => true) []).finalStore) e.id = some e) :=
  claim_C5_queueing [entryW "qa" none, entryW "qb" none, entryW "qc" none]
    (fun _ => true) [] (by decide) (by decide)

/-! ### Claim C6 — initialization idempotence under concurrency -/

/-- Claim C6: two `get` calls submitted together against a fresh store start
exactly one `init()` chain (`initCalls = 1` — the second call sees
`isInitializing = true` and only queues), which performs exactly one
`openDB` call when the first open succeeds, and both callers' promises
resolve with the correct lookup against that same store. -/
theorem claim_C6_init_idempotent (a b : String) (s0 : Store) (openOk : Nat → Bool)
    (h : openOk 0 = true) :
    (runScenario [DBOp.get a, DBOp.get b] openOk s0).initCalls = 1 ∧
    (runScenario [DBOp.get a, DBOp.get b] openOk s0).openAttempts = 1 ∧
    (runScenario [DBOp.get a, DBOp.get b] openOk s0).outcomes 0
      = .resolved (.found (getFile s0 a)) ∧
    (runScenario [DBOp.get a, DBOp.get b] openOk s0).outcomes 1
      = .resolved (.found (getFile s0 b)) ∧
    (runScenario [DBOp.get a, DBOp.get b] openOk s0).finalStore = s0 := by
  have hr := initWithRetry_firstOk h
  refine ⟨?_, ?_, ?_, ?_, ?_⟩ <;>
    simp [runScenario, submitOps_cons, hr, execQueuedOps, runDBOp, List.enumFrom, List.find?]

/-- Witness for C6. -/
theorem claim_C6_init_idempotent_witness :
    (runScenario [DBOp.get "wa", DBOp.get "wb"] (fun _ => true) [entryW "wa" none]).initCalls
      = 1 ∧
    (runScenario [DBOp.get "wa", DBOp.get "wb"] (fun _ => true)
        [entryW "wa" none]).openAttempts = 1 ∧
    (runScenario [DBOp.get "wa", DBOp.get "wb"] (fun _ => true) [entryW "wa" none]).outcomes 0
      = .resolved (.found (getFile [entryW "wa" none] "wa")) ∧
    (runScenario [DBOp.get "wa", DBOp.get "wb"] (fun _ => true) [entryW "wa" none]).outcomes 1
      = .resolved (.found (getFile [entryW "wa" none] "wb")) ∧
    (runScenario [DBOp.get "wa", DBOp.get "wb"] (fun _ => true) [entryW "wa" none]).finalStore
      = [entryW "wa" none] :=
  claim_C6_init_idempotent "wa" "wb" [entryW "wa" none] (fun _ => true) rfl

/-! ### Claim C4 — rejection of buffered operations on permanent failure -/

/-- Claim C4 evaluated at the failing input: two `put` submissions are
buffered against a fresh store and every `openDB` attempt fails.  Only the
submission that triggered `init()` (arrival index 0, the one that attached
`.catch(reject)`, line 60) is rejected; the other buffered submission's
promise is never settled (`executeQueuedOperations` is only called on the
success path, line 143, and the failure path lines 145-148 rejects just the
`init()` promise), so the claim that every buffered operation is rejected —
no caller left awaiting — is false of the code.  The entries do remain in
`operationQueue`. -/
theorem claim_C4_only_trigger_rejected :
    (runScenario [DBOp.add (entryW "a" none), DBOp.add (entryW "b" none)]
        (fun _ => false) []).outcomes 0 = .rejected ∧
    (runScenario [DBOp.add (entryW "a" none), DBOp.add (entryW "b" none)]
        (fun _ => false) []).outcomes 1 = .pending ∧
    Outcome.pending ≠ Outcome.rejected ∧
    (runScenario [DBOp.add (entryW "a" none), DBOp.add (entryW "b" none)]
        (fun _ => false) []).remainingQueue
      = [(0, DBOp.add (entryW "a" none)), (1, DBOp.add (entryW "b" none))] := by
  decide

/-! ### Claim C9 — bounded initialization retry (error reaches only the trigger) -/

/-- Counterexample to claim C9 as stated: its conclusion has the exhausted
retry "surfacing the store-unavailable error to queued callers" (the spec:
to every queued caller).  With two queued `get` calls and every `openDB`
attempt failing, the retry loop does stop after exactly 3 attempts, but the
error settles only the triggering caller's promise — the second queued
caller stays pending, so the error is not surfaced to the queued callers. -/
theorem claim_C9_cex :
    (runScenario [DBOp.get "g1", DBOp.get "g2"] (fun _ => false) []).openAttempts = 3 ∧
    (runScenario [DBOp.get "g1", DBOp.get "g2"] (fun _ => false) []).outcomes 0
      = Outcome.rejected ∧
    (runScenario [DBOp.get "g1", DBOp.get "g2"] (fun _ => false) []).outcomes 1
      = Outcome.pending ∧
    Outcome.pending ≠ Outcome.rejected := by
  decide

/-- Claim C9 as amended: the retry loop always terminates — for any pattern
of open outcomes it makes at most `maxRetries = 3` `openDB` calls; when
every attempt fails it makes exactly 3 calls and then fails permanently
(no further retry), and the resulting store-unavailable error is surfaced
to the queued caller that triggered initialization — only to that caller
(the counterexample above: callers buffered while initialization was in
flight are left pending) — instead of the loop retrying forever. -/
theorem claim_C9_bounded_retry (openOk : Nat → Bool) (ops : List DBOp) (s0 : Store)
    (hne : ops ≠ []) (hfail : ∀ i, openOk i = false) :
    (∀ g : Nat → Bool, (initWithRetry g).1 ≤ maxRetries) ∧
    initWithRetry openOk = (maxRetries, false) ∧
    (runScenario ops openOk s0).outcomes 0 = Outcome.rejected := by
  refine ⟨fun g => initWithRetryGo_fst_le g maxRetries 0, initWithRetry_allFail hfail, ?_⟩
  obtain ⟨op, rest, rfl⟩ := List.exists_cons_of_ne_nil hne
  simp [runScenario, submitOps_cons, initWithRetry_allFail hfail]

/-- Witness for C9. -/
theorem claim_C9_bounded_retry_witness :
    (∀ g : Nat → Bool, (initWithRetry g).1 ≤ maxRetries) ∧
    initWithRetry (fun _ => false) = (maxRetries, false) ∧
    (runScenario [DBOp.get "w9"] (fun _ => false) []).outcomes 0 = Outcome.rejected :=
  claim_C9_bounded_retry (fun _ => false) [DBOp.get "w9"] [] (by decide) (fun _ => rfl)

end FileManager
